import Mathlib

/-!
Verification of the FAQ-matching engine of the Twin Health chatbot.

The repository contains three variants of the matcher:
* `Scripts` — the token-overlap matcher of `scripts.js` (`tokenize`,
  `findBestMatch` with integer weights 3/1/2/2 and threshold 1);
* `Weighted` — the multi-field weighted matcher of the second source file
  (`normalizeText`, `extractKeywords`, `calculateSimilarity`,
  `findBestMatch` with weights 5/3/2/1 and threshold 50);
* `Simple` — the substring/token matcher of the third source file
  (containment bonus 5, per-tag 2, per-token 0.7, source bonus 0.1,
  threshold 1.0).

Strings are modelled as `List Char` (JavaScript strings restricted to the
character operations the code performs; `null`/`undefined` inputs are the
empty list, and JavaScript's truthiness test on optional fields is an
explicit emptiness test on `Option (List Char)`).  JavaScript numbers are
modelled as exact rationals `Rat`: every score the code computes is a sum
of the literal weights, so `Rat` is the intended exact semantics of the
arithmetic.
-/

/-- Convert a string literal to the `List Char` representation used
throughout this development. -/
def str (s : String) : List Char := s.toList

/-- Character class `\w` of a JavaScript regular expression (no `u` flag):
ASCII letters, digits and underscore. -/
def isWordChar (c : Char) : Bool :=
  decide ((65 ≤ c.toNat ∧ c.toNat ≤ 90) ∨ (97 ≤ c.toNat ∧ c.toNat ≤ 122) ∨
    (48 ≤ c.toNat ∧ c.toNat ≤ 57) ∨ c.toNat = 95)

/-- Character class `[a-z0-9]` used by the tokenizers. -/
def isAlnumChar (c : Char) : Bool :=
  decide ((97 ≤ c.toNat ∧ c.toNat ≤ 122) ∨ (48 ≤ c.toNat ∧ c.toNat ≤ 57))

/-- Character class `\s` of a JavaScript regular expression, restricted to
the whitespace characters that occur in practice (space, tab, LF, VT, FF,
CR, NBSP). -/
def isSpaceChar (c : Char) : Bool :=
  decide (c.toNat = 32 ∨ c.toNat = 9 ∨ c.toNat = 10 ∨ c.toNat = 11 ∨
    c.toNat = 12 ∨ c.toNat = 13 ∨ c.toNat = 160)

/-- JavaScript `String.prototype.trim`: drop whitespace from both ends. -/
def jsTrim (l : List Char) : List Char :=
  ((l.dropWhile (isSpaceChar ·)).reverse.dropWhile (isSpaceChar ·)).reverse

/-- Auxiliary state machine for `replace(/\s+/g, ' ')`: the flag records
whether the previous character was whitespace (so that a whitespace run
contributes a single space). -/
def collapseAux : Bool → List Char → List Char
  | _, [] => []
  | prevSp, c :: cs =>
    if isSpaceChar c then
      if prevSp then collapseAux true cs else ' ' :: collapseAux true cs
    else c :: collapseAux false cs

/-- JavaScript `replace(/\s+/g, ' ')`: collapse every whitespace run to a
single space. -/
def collapseWs (l : List Char) : List Char := collapseAux false l

/-- JavaScript `a.startsWith(b)` on char lists (used to define `includes`). -/
def startsWithL : List Char → List Char → Bool
  | _, [] => true
  | [], _ :: _ => false
  | a :: as, b :: bs => a == b && startsWithL as bs

/-- JavaScript `a.includes(b)`: `b` occurs as a contiguous substring of `a`
(the empty string is contained in everything). -/
def containsSub : List Char → List Char → Bool
  | [], n => n.isEmpty
  | a :: as, n => startsWithL (a :: as) n || containsSub as n

/-- JavaScript `text.split(' ')` (splitting on the single-space separator;
the result is never empty, and an empty input yields `[[]]`). -/
def splitSp : List Char → List (List Char)
  | [] => [[]]
  | c :: cs =>
    if c == ' ' then [] :: splitSp cs
    else
      match splitSp cs with
      | [] => [[c]]
      | w :: ws => (c :: w) :: ws

/-- Maximal runs of `\w` characters of a string, accumulating the current
run in reverse.  Together with the all-alphanumeric filter this implements
`text.match(/\b[a-z0-9]+\b/g)` on lowercased text: a maximal `\w` run is a
match exactly when it contains no underscore. -/
def wordRunsAux (acc : List Char) : List Char → List (List Char)
  | [] => if acc.isEmpty then [] else [acc.reverse]
  | c :: cs =>
    if isWordChar c then wordRunsAux (c :: acc) cs
    else if acc.isEmpty then wordRunsAux [] cs
    else acc.reverse :: wordRunsAux [] cs

/-- JavaScript `x || 'default'` on an optional text field: the default is
used when the field is absent or empty (falsy). -/
def orElseText (o : Option (List Char)) (d : List Char) : List Char :=
  match o with
  | some s => if s.isEmpty then d else s
  | none => d

/-- One knowledge-base entry, as read from `knowledge_base.json`.  Optional
fields are `Option` values; JavaScript code guards each access with a
truthiness test. -/
structure KnowledgeEntry where
  question : List Char
  answer : List Char
  tags : List (List Char)
  category : Option (List Char)
  source : Option (List Char)
  last_updated : Option (List Char)
deriving DecidableEq, Repr

/-- Result record produced by the weighted matcher (`{answer, source,
score}`). -/
structure MatchResult where
  answer : List Char
  source : List Char
  score : Rat
deriving DecidableEq, Repr

/-- One iteration of the best-entry selection loop shared by all three
matchers: keep the current best entry and score, updating only on a strict
increase (`score > bestScore`).  The score type is `Int` for the
integer-weighted variant and `Rat` for the fractional ones. -/
def bestStep {α β : Type} [LinearOrder β] (f : α → β) (acc : Option α × β)
    (e : α) : Option α × β :=
  if acc.2 < f e then (some e, f e) else acc

/-- The selection loop itself: fold `bestStep` from `(null, z)`. -/
def runBest {α β : Type} [LinearOrder β] (z : β) (f : α → β) (l : List α) :
    Option α × β :=
  l.foldl (bestStep f) (none, z)

/-! ## The `scripts.js` variant -/

/-- Tokenizer of `scripts.js`:
`(text || '').toLowerCase().match(/\b[a-z0-9]+\b/g) || []`. -/
def Scripts.tokenize (text : List Char) : List (List Char) :=
  (wordRunsAux [] (text.map Char.toLower)).filter (fun r => r.all (isAlnumChar ·))

/-- Score of one entry in the `scripts.js` loop: for every message token,
+3 if it occurs among the question tokens, +1 for answer tokens, +2 for
tag tokens, +2 for category tokens. -/
def Scripts.entryScore (userMessage : List Char) (e : KnowledgeEntry) : Int :=
  let msgTokens := Scripts.tokenize userMessage
  let qTokens := Scripts.tokenize e.question
  let aTokens := Scripts.tokenize e.answer
  let tagTokens := (e.tags.map Scripts.tokenize).flatten
  let categoryTokens := Scripts.tokenize (e.category.getD [])
  (msgTokens.map fun t =>
    (if qTokens.contains t then (3 : Int) else 0) +
    (if aTokens.contains t then 1 else 0) +
    (if tagTokens.contains t then 2 else 0) +
    (if categoryTokens.contains t then 2 else 0)).sum

/-- Reply string built by `scripts.js` on acceptance:
```${best.answer}\n\n<em>Source: ${best.source || 'Twin Health'}</em>```. -/
def Scripts.formatReply (e : KnowledgeEntry) : List Char :=
  e.answer ++ str "\n\n<em>Source: " ++ orElseText e.source (str "Twin Health") ++
    str "</em>"

/-- `findBestMatch` of `scripts.js`: guard on the loaded flag and a falsy
message, run the selection loop, accept when `bestScore >= 1`. -/
def Scripts.findBestMatch (kbLoaded : Bool) (kbEntries : List KnowledgeEntry)
    (userMessage : List Char) : Option (List Char) :=
  if kbLoaded = false ∨ userMessage = [] then none
  else
    match runBest (0 : Int) (Scripts.entryScore userMessage) kbEntries with
    | (some e, s) => if 1 ≤ s then some (Scripts.formatReply e) else none
    | (none, _) => none

/-- State read by `findBestMatch` in `scripts.js`: the module-level
`kbEntries` array and `kbLoaded` flag. -/
structure ScriptsState where
  kbEntries : List KnowledgeEntry
  kbLoaded : Bool
deriving DecidableEq

/-- State-passing form of `Scripts.findBestMatch`: the function reads
`kbLoaded` and `kbEntries` and contains no assignment to either, so the
state it returns is the state it was given. -/
def Scripts.findBestMatchS (st : ScriptsState) (userMessage : List Char) :
    Option (List Char) × ScriptsState :=
  (Scripts.findBestMatch st.kbLoaded st.kbEntries userMessage, st)

/-! ## The weighted variant -/

/-- `normalizeText` of the weighted variant:
`(text || '').toLowerCase().replace(/[^\w\s]/g, ' ').replace(/\s+/g, ' ').trim()`. -/
def Weighted.normalizeText (text : List Char) : List Char :=
  jsTrim (collapseWs ((text.map Char.toLower).map fun c =>
    if isWordChar c || isSpaceChar c then c else ' '))

/-- Stop-word set of `extractKeywords`, copied verbatim from the source. -/
def Weighted.stopWords : List (List Char) :=
  [str "a", str "an", str "and", str "are", str "as", str "at", str "be",
   str "by", str "for", str "from", str "has", str "he", str "in", str "is",
   str "it", str "its", str "of", str "on", str "that", str "the", str "to",
   str "was", str "will", str "with", str "can", str "do", str "does",
   str "what", str "how", str "why", str "when", str "where", str "who",
   str "i", str "my", str "me", str "you", str "your"]

/-- `extractKeywords`: split the normalized text on spaces and keep words of
length greater than two that are not stop words. -/
def Weighted.extractKeywords (text : List Char) : List (List Char) :=
  (splitSp (Weighted.normalizeText text)).filter fun w =>
    2 < w.length && !(Weighted.stopWords.contains w)

/-- `calculateSimilarity`: 100 when one normalized text contains the other,
otherwise 80 times the fraction of user keywords present among the
knowledge-base keywords (0 when the user has no keywords). -/
def Weighted.calculateSimilarity (userText kbText : List Char) : Rat :=
  if containsSub (Weighted.normalizeText kbText) (Weighted.normalizeText userText) ||
      containsSub (Weighted.normalizeText userText) (Weighted.normalizeText kbText) then 100
  else if (Weighted.extractKeywords userText).length = 0 then 0
  else (((Weighted.extractKeywords userText).filter fun w =>
      (Weighted.extractKeywords kbText).contains w).length : Rat) /
    ((Weighted.extractKeywords userText).length : Rat) * 80

/-- Score of one entry in the weighted loop: question similarity times 5,
plus 3 per tag similarity, plus category similarity times 2 when the
category field is truthy, plus answer similarity. -/
def Weighted.entryScore (userMessage : List Char) (e : KnowledgeEntry) : Rat :=
  Weighted.calculateSimilarity userMessage e.question * 5 +
  (e.tags.map fun t => Weighted.calculateSimilarity userMessage t * 3).sum +
  (match e.category with
   | some c => if c.isEmpty then 0 else Weighted.calculateSimilarity userMessage c * 2
   | none => 0) +
  Weighted.calculateSimilarity userMessage e.answer * 1

/-- Source label of the weighted result:
`bestMatch.source || 'Twin Health Knowledge Base'`. -/
def Weighted.sourceLabel (e : KnowledgeEntry) : List Char :=
  orElseText e.source (str "Twin Health Knowledge Base")

/-- `findBestMatch` of the weighted variant: guard on the loaded flag, a
falsy message and trimmed length below 2; run the selection loop; accept
when the best score reaches the threshold 50. -/
def Weighted.findBestMatch (kbLoaded : Bool) (kbEntries : List KnowledgeEntry)
    (userMessage : List Char) : Option MatchResult :=
  if kbLoaded = false ∨ userMessage = [] ∨ (jsTrim userMessage).length < 2 then none
  else
    match runBest (0 : Rat) (Weighted.entryScore userMessage) kbEntries with
    | (some e, s) => if 50 ≤ s then some ⟨e.answer, Weighted.sourceLabel e, s⟩ else none
    | (none, _) => none

/-! ## The simple variant -/

/-- Scanner implementing `/\b[a-z0-9]+(?:'[a-z0-9]+)?\b/g` with explicit
fuel (one unit per consumed character, so fuel equal to the input length
suffices).  The boolean records whether the previous character was a `\w`
character, which decides the leading word boundary; the trailing boundary
fails only on an underscore, in which case the engine backtracks exactly as
the regular expression does (an apostrophe group whose trailing boundary
fails is dropped and the bare run is kept). -/
def simpleScan : Nat → Bool → List Char → List (List Char)
  | 0, _, _ => []
  | _ + 1, _, [] => []
  | fuel + 1, prevWord, c :: cs =>
    if isAlnumChar c = false then simpleScan fuel (isWordChar c) cs
    else if prevWord then simpleScan fuel true cs
    else
      let run1 := c :: cs.takeWhile (isAlnumChar ·)
      let rest1 := cs.dropWhile (isAlnumChar ·)
      match rest1 with
      | '_' :: rest => simpleScan fuel true ('_' :: rest)
      | '\'' :: d :: ds =>
        if isAlnumChar d then
          let run2 := d :: ds.takeWhile (isAlnumChar ·)
          let rest2 := ds.dropWhile (isAlnumChar ·)
          match rest2 with
          | '_' :: _ => run1 :: simpleScan fuel true ('\'' :: d :: ds)
          | _ => (run1 ++ '\'' :: run2) :: simpleScan fuel true rest2
        else run1 :: simpleScan fuel true ('\'' :: d :: ds)
      | rest => run1 :: simpleScan fuel true rest

/-- Tokenizer of the simple variant:
`(text || '').toLowerCase().match(/\b[a-z0-9]+(?:'[a-z0-9]+)?\b/g) || []`. -/
def Simple.tokenize (text : List Char) : List (List Char) :=
  simpleScan (text.map Char.toLower).length false (text.map Char.toLower)

/-- Score terms of one entry other than the source bonus: containment bonus
5 when the lowercased question contains the processed message and the
message is longer than 3 characters, plus 2 per lowercased tag contained in
the message, plus 0.7 per message token found among the question tokens. -/
def Simple.baseScore (message : List Char) (e : KnowledgeEntry) : Rat :=
  (if containsSub (e.question.map Char.toLower) message = true ∧
      3 < message.length then (5 : Rat) else 0) +
  2 * (((e.tags.map (List.map Char.toLower)).filter fun tag =>
    containsSub message tag).length : Rat) +
  (7 / 10) * (((Simple.tokenize message).filter fun t =>
    (Simple.tokenize (e.question.map Char.toLower)).contains t).length : Rat)

/-- The base score of the simple variant, scaled by 10: every weight of
`Simple.baseScore` (5, 2, 0.7) is an integer multiple of one tenth, so ten
times the base score is the natural number computed here. -/
def Simple.scaledBase (message : List Char) (e : KnowledgeEntry) : Nat :=
  (if containsSub (e.question.map Char.toLower) message = true ∧
      3 < message.length then 50 else 0) +
  20 * ((e.tags.map (List.map Char.toLower)).filter fun tag =>
    containsSub message tag).length +
  7 * ((Simple.tokenize message).filter fun t =>
    (Simple.tokenize (e.question.map Char.toLower)).contains t).length

/-- Truthiness of the `source` field (`if (entry.source)`). -/
def Simple.sourceTruthy (e : KnowledgeEntry) : Bool :=
  match e.source with
  | some s => !s.isEmpty
  | none => false

/-- Full score of one entry in the simple loop: the base terms plus the
0.1 source bonus. -/
def Simple.entryScore (message : List Char) (e : KnowledgeEntry) : Rat :=
  Simple.baseScore message e + (if Simple.sourceTruthy e then 1 / 10 else 0)

/-- Reply string built by the simple variant on acceptance. -/
def Simple.formatReply (e : KnowledgeEntry) : List Char :=
  e.answer ++ str "\n\nSource: " ++ orElseText e.source (str "unknown") ++
    str " (updated " ++ orElseText e.last_updated (str "unknown") ++ str ")"

/-- `findBestMatch` of the simple variant: lowercase and trim the message,
guard on an empty message, the loaded flag and an empty entry list, run the
selection loop, accept when the best score reaches 1.0. -/
def Simple.findBestMatch (kbLoaded : Bool) (kbEntries : List KnowledgeEntry)
    (userMessage : List Char) : Option (List Char) :=
  let message := jsTrim (userMessage.map Char.toLower)
  if message = [] ∨ kbLoaded = false ∨ kbEntries = [] then none
  else
    match runBest (0 : Rat) (Simple.entryScore message) kbEntries with
    | (some e, s) => if 1 ≤ s then some (Simple.formatReply e) else none
    | (none, _) => none

/-! ## Properties of the selection loop -/

theorem foldBest_spec {α β : Type} [LinearOrder β] (f : α → β) :
    ∀ (l : List α) (acc : Option α × β),
      (∀ e ∈ l, f e ≤ (l.foldl (bestStep f) acc).2) ∧
      acc.2 ≤ (l.foldl (bestStep f) acc).2 ∧
      (l.foldl (bestStep f) acc = acc ∨
        ∃ e ∈ l, (l.foldl (bestStep f) acc).1 = some e ∧
          (l.foldl (bestStep f) acc).2 = f e) := by
  intro l
  induction l with
  | nil => intro acc; simp
  | cons x xs ih =>
    intro acc
    have hstep : acc.2 ≤ (bestStep f acc x).2 ∧
        f x ≤ (bestStep f acc x).2 ∧
        (bestStep f acc x = acc ∨
          (bestStep f acc x).1 = some x ∧ (bestStep f acc x).2 = f x) := by
      unfold bestStep
      by_cases h : acc.2 < f x
      · simp [h, le_of_lt h]
      · simp [h, le_of_not_lt h]
    obtain ⟨h1, h2, h3⟩ := hstep
    obtain ⟨ih1, ih2, ih3⟩ := ih (bestStep f acc x)
    refine ⟨?_, le_trans h1 ih2, ?_⟩
    · intro e he
      rcases List.mem_cons.mp he with rfl | he
      · calc f e ≤ (bestStep f acc e).2 := h2
          _ ≤ _ := ih2
      · exact ih1 e he
    · rcases ih3 with heq | ⟨e, he, hsome, hval⟩
      · rcases h3 with h3 | ⟨hs, hv⟩
        · exact Or.inl (by rw [List.foldl_cons, heq, h3])
        · exact Or.inr ⟨x, List.mem_cons_self x xs, by rw [List.foldl_cons, heq]; exact ⟨hs, hv⟩⟩
      · exact Or.inr ⟨e, List.mem_cons_of_mem x he, hsome, hval⟩

theorem foldBest_frozen {α β : Type} [LinearOrder β] (f : α → β) :
    ∀ (l : List α) (acc : Option α × β), (∀ e ∈ l, f e ≤ acc.2) →
      l.foldl (bestStep f) acc = acc := by
  intro l
  induction l with
  | nil => intro acc _; rfl
  | cons x xs ih =>
    intro acc h
    have hx : ¬ acc.2 < f x := not_lt.mpr (h x (List.mem_cons_self x xs))
    have hstep : bestStep f acc x = acc := by unfold bestStep; simp [hx]
    rw [List.foldl_cons, hstep]
    exact ih acc fun e he => h e (List.mem_cons_of_mem x he)

theorem runBest_le {α β : Type} [LinearOrder β] (z : β) (f : α → β)
    (l : List α) : ∀ e ∈ l, f e ≤ (runBest z f l).2 :=
  (foldBest_spec f l (none, z)).1

theorem runBest_mem {α β : Type} [LinearOrder β] (z : β) (f : α → β)
    (l : List α) (e : α) (h : (runBest z f l).1 = some e) :
    e ∈ l ∧ (runBest z f l).2 = f e := by
  rcases (foldBest_spec f l (none, z)).2.2 with heq | ⟨e', he', hsome, hval⟩
  · rw [show runBest z f l = l.foldl (bestStep f) (none, z) from rfl, heq] at h
    simp at h
  · have : e' = e := by
      have := hsome.symm.trans h
      simpa using this
    subst this
    exact ⟨he', hval⟩

theorem runBest_first {α β : Type} [LinearOrder β] (z : β) (f : α → β)
    (e1 : α) (l : List α) (hz : z < f e1) (hmax : ∀ e ∈ l, f e ≤ f e1) :
    runBest z f (e1 :: l) = (some e1, f e1) := by
  unfold runBest
  rw [List.foldl_cons]
  have hstep : bestStep f (none, z) e1 = (some e1, f e1) := by
    unfold bestStep; simp [hz]
  rw [hstep]
  exact foldBest_frozen f l (some e1, f e1) (by simpa using hmax)

/-! ## Character-level lemmas -/

theorem toNat_ofNat_lt {n : Nat} (h : n < 55296) : (Char.ofNat n).toNat = n := by
  unfold Char.ofNat
  rw [dif_pos (Or.inl h)]
  simp [Char.toNat, Char.ofNatAux, UInt32.toNat, UInt32.ofNat']

theorem toLower_toNat (c : Char) :
    (Char.toLower c).toNat =
      if 65 ≤ c.toNat ∧ c.toNat ≤ 90 then c.toNat + 32 else c.toNat := by
  unfold Char.toLower
  by_cases h : 65 ≤ c.toNat ∧ c.toNat ≤ 90
  · rw [if_pos h, if_pos h, toNat_ofNat_lt (by omega)]
  · rw [if_neg h, if_neg h]

theorem toLower_not_upper (c : Char) :
    ¬ (65 ≤ (Char.toLower c).toNat ∧ (Char.toLower c).toNat ≤ 90) := by
  rw [toLower_toNat]
  split <;> omega

theorem toLower_space (c : Char) (h : isSpaceChar c = true) : Char.toLower c = c := by
  have hs : c.toNat = 32 ∨ c.toNat = 9 ∨ c.toNat = 10 ∨ c.toNat = 11 ∨
      c.toNat = 12 ∨ c.toNat = 13 ∨ c.toNat = 160 := by
    simpa [isSpaceChar] using h
  have hn : ¬ (65 ≤ c.toNat ∧ c.toNat ≤ 90) := by omega
  unfold Char.toLower
  rw [if_neg hn]

theorem space_not_word (c : Char) (h : isSpaceChar c = true) : isWordChar c = false := by
  have hs : c.toNat = 32 ∨ c.toNat = 9 ∨ c.toNat = 10 ∨ c.toNat = 11 ∨
      c.toNat = 12 ∨ c.toNat = 13 ∨ c.toNat = 160 := by
    simpa [isSpaceChar] using h
  simp only [isWordChar, decide_eq_false_iff_not]
  omega

/-! ## List-level lemmas -/

theorem mem_of_dropWhile {α : Type} {p : α → Bool} {l : List α} {c : α}
    (h : c ∈ l.dropWhile p) : c ∈ l :=
  List.dropWhile_subset p h

theorem head_dropWhile {α : Type} {p : α → Bool} :
    ∀ {l : List α} {c : α} {t : List α}, l.dropWhile p = c :: t → p c = false := by
  intro l
  induction l with
  | nil => intro c t h; simp [List.dropWhile] at h
  | cons x xs ih =>
    intro c t h
    rw [List.dropWhile_cons] at h
    by_cases hx : p x
    · rw [if_pos hx] at h
      exact ih h
    · rw [if_neg hx] at h
      injection h with h1 _
      subst h1
      simpa using hx

theorem getLast?_of_suffix {α : Type} {l1 l2 : List α} (h : l1 <:+ l2)
    (hne : l1 ≠ []) : l1.getLast? = l2.getLast? := by
  obtain ⟨t, rfl⟩ := h
  exact (List.getLast?_append_of_ne_nil t hne).symm

theorem startsWithL_self (l : List Char) : startsWithL l l = true := by
  induction l with
  | nil => rfl
  | cons x xs ih => simp [startsWithL, ih]

theorem containsSub_self (l : List Char) : containsSub l l = true := by
  cases l with
  | nil => rfl
  | cons x xs => simp [containsSub, startsWithL_self]

/-! ## Lemmas about the weighted similarity -/

theorem calculateSimilarity_contains (u k : List Char)
    (h : (containsSub (Weighted.normalizeText k) (Weighted.normalizeText u) ||
      containsSub (Weighted.normalizeText u) (Weighted.normalizeText k)) = true) :
    Weighted.calculateSimilarity u k = 100 := by
  unfold Weighted.calculateSimilarity
  rw [if_pos h]

theorem calculateSimilarity_overlap (u k : List Char)
    (h : (containsSub (Weighted.normalizeText k) (Weighted.normalizeText u) ||
      containsSub (Weighted.normalizeText u) (Weighted.normalizeText k)) = false)
    (h0 : (Weighted.extractKeywords u).length ≠ 0) :
    Weighted.calculateSimilarity u k =
      (((Weighted.extractKeywords u).filter fun w =>
        (Weighted.extractKeywords k).contains w).length : Rat) /
      ((Weighted.extractKeywords u).length : Rat) * 80 := by
  unfold Weighted.calculateSimilarity
  rw [if_neg (by simp [h]), if_neg h0]

theorem calculateSimilarity_nonneg (u k : List Char) :
    0 ≤ Weighted.calculateSimilarity u k := by
  unfold Weighted.calculateSimilarity
  split
  · norm_num
  · split
    · exact le_refl 0
    · positivity

theorem calculateSimilarity_100_or_le_80 (u k : List Char) :
    Weighted.calculateSimilarity u k = 100 ∨ Weighted.calculateSimilarity u k ≤ 80 := by
  unfold Weighted.calculateSimilarity
  split
  · exact Or.inl rfl
  · split
    · exact Or.inr (by norm_num)
    · refine Or.inr ?_
      next h0 =>
      have hle : (List.filter (fun w => (Weighted.extractKeywords k).contains w)
          (Weighted.extractKeywords u)).length ≤ (Weighted.extractKeywords u).length :=
        List.length_filter_le _ _
      have hpos : (0 : Rat) < ((Weighted.extractKeywords u).length : Rat) := by
        have : 0 < (Weighted.extractKeywords u).length := Nat.pos_of_ne_zero h0
        exact_mod_cast this
      have hfrac : (((Weighted.extractKeywords u).filter fun w =>
          (Weighted.extractKeywords k).contains w).length : Rat) /
          ((Weighted.extractKeywords u).length : Rat) ≤ 1 := by
        rw [div_le_one hpos]
        exact_mod_cast hle
      calc (((Weighted.extractKeywords u).filter fun w =>
            (Weighted.extractKeywords k).contains w).length : Rat) /
            ((Weighted.extractKeywords u).length : Rat) * 80
          ≤ 1 * 80 := by
            apply mul_le_mul_of_nonneg_right hfrac
            norm_num
        _ = 80 := by norm_num

theorem weighted_tagSum_nonneg (msg : List Char) (tags : List (List Char)) :
    0 ≤ (tags.map fun t => Weighted.calculateSimilarity msg t * 3).sum := by
  apply List.sum_nonneg
  intro x hx
  rw [List.mem_map] at hx
  obtain ⟨t, _, rfl⟩ := hx
  have := calculateSimilarity_nonneg msg t
  linarith

theorem weighted_catScore_nonneg (msg : List Char) (cat : Option (List Char)) :
    0 ≤ (match cat with
      | some c => if c.isEmpty then (0 : Rat)
          else Weighted.calculateSimilarity msg c * 2
      | none => 0) := by
  cases cat with
  | none => exact le_refl 0
  | some c =>
    show 0 ≤ if c.isEmpty = true then (0 : Rat)
      else Weighted.calculateSimilarity msg c * 2
    by_cases hc : c.isEmpty = true
    · rw [if_pos hc]
    · rw [if_neg hc]
      have := calculateSimilarity_nonneg msg c
      linarith

theorem weighted_entryScore_nonneg (msg : List Char) (e : KnowledgeEntry) :
    0 ≤ Weighted.entryScore msg e := by
  unfold Weighted.entryScore
  have hq := calculateSimilarity_nonneg msg e.question
  have ha := calculateSimilarity_nonneg msg e.answer
  have ht := weighted_tagSum_nonneg msg e.tags
  have hc := weighted_catScore_nonneg msg e.category
  linarith

theorem weighted_entryScore_ge_of_exact (msg : List Char) (e : KnowledgeEntry)
    (hq : msg = e.question) : 500 ≤ Weighted.entryScore msg e := by
  have hsim : Weighted.calculateSimilarity msg e.question = 100 := by
    apply calculateSimilarity_contains
    rw [hq]
    simp [containsSub_self]
  unfold Weighted.entryScore
  rw [hsim]
  have ha := calculateSimilarity_nonneg msg e.answer
  have ht := weighted_tagSum_nonneg msg e.tags
  have hc := weighted_catScore_nonneg msg e.category
  linarith

theorem runBest_none {α β : Type} [LinearOrder β] (z : β) (f : α → β)
    (l : List α) (h : (runBest z f l).1 = none) : (runBest z f l).2 = z := by
  rcases (foldBest_spec f l (none, z)).2.2 with heq | ⟨e, _, hsome, _⟩
  · rw [show runBest z f l = l.foldl (bestStep f) (none, z) from rfl, heq]
  · have h2 : (l.foldl (bestStep f) (none, z)).1 = none := h
    rw [hsome] at h2
    simp at h2

/-! ## Lemmas about whitespace-only messages -/

theorem wordRunsAux_nil_of_no_word (l : List Char)
    (h : ∀ c ∈ l, isWordChar c = false) : wordRunsAux [] l = [] := by
  induction l with
  | nil => rfl
  | cons x xs ih =>
    have hx := h x (List.mem_cons_self x xs)
    have ihx := ih fun c hc => h c (List.mem_cons_of_mem x hc)
    simp [wordRunsAux, hx, ihx]

theorem scripts_tokenize_space (msg : List Char)
    (h : ∀ c ∈ msg, isSpaceChar c = true) : Scripts.tokenize msg = [] := by
  unfold Scripts.tokenize
  rw [wordRunsAux_nil_of_no_word]
  · rfl
  · intro c hc
    rw [List.mem_map] at hc
    obtain ⟨d, hd, rfl⟩ := hc
    rw [toLower_space d (h d hd)]
    exact space_not_word d (h d hd)

theorem scripts_entryScore_zero (msg : List Char) (e : KnowledgeEntry)
    (h : Scripts.tokenize msg = []) : Scripts.entryScore msg e = 0 := by
  simp [Scripts.entryScore, h]

theorem jsTrim_space (l : List Char) (h : ∀ c ∈ l, isSpaceChar c = true) :
    jsTrim l = [] := by
  unfold jsTrim
  rw [List.dropWhile_eq_nil_iff.mpr h]
  rfl

theorem map_toLower_space (l : List Char) (h : ∀ c ∈ l, isSpaceChar c = true) :
    ∀ c ∈ l.map Char.toLower, isSpaceChar c = true := by
  intro c hc
  rw [List.mem_map] at hc
  obtain ⟨d, hd, rfl⟩ := hc
  rw [toLower_space d (h d hd)]
  exact h d hd

/-! ## Claim C2 -/

/-- C2: for every input, if the user message is empty or whitespace-only, or
the entry collection is empty, or the knowledge base has not been loaded,
then `findBestMatch` returns null.  The simple variant takes its explicit
no-op fast path for all three conditions; in `scripts.js` a whitespace-only
message yields no tokens, so every entry scores 0, no entry is recorded as
best, and the threshold test rejects. -/
theorem c2_null_fast_path (kb : Bool) (entries : List KnowledgeEntry)
    (msg : List Char)
    (h : (∀ c ∈ msg, isSpaceChar c = true) ∨ kb = false ∨ entries = []) :
    Simple.findBestMatch kb entries msg = none ∧
    Scripts.findBestMatch kb entries msg = none := by
  constructor
  · have hguard : jsTrim (msg.map Char.toLower) = [] ∨ kb = false ∨ entries = [] := by
      rcases h with h | h | h
      · exact Or.inl (jsTrim_space _ (map_toLower_space msg h))
      · exact Or.inr (Or.inl h)
      · exact Or.inr (Or.inr h)
    simp only [Simple.findBestMatch]
    rw [if_pos hguard]
  · unfold Scripts.findBestMatch
    by_cases hg : (kb = false ∨ msg = [])
    · rw [if_pos hg]
    · rw [if_neg hg]
      rcases h with h | h | h
      · have hz : ∀ e ∈ entries, Scripts.entryScore msg e ≤ (0 : Int) := by
          intro e _
          rw [scripts_entryScore_zero msg e (scripts_tokenize_space msg h)]
        have h2 : runBest (0 : Int) (Scripts.entryScore msg) entries = (none, 0) :=
          foldBest_frozen _ entries (none, 0) hz
        rw [h2]
      · exact absurd (Or.inl h) hg
      · subst h
        rfl

/-- C2 witness: a whitespace-only message against a loaded single-entry
knowledge base is rejected by both variants. -/
theorem c2_witness :
    Simple.findBestMatch true [⟨str "q", str "a", [], none, none, none⟩]
      (str "   ") = none ∧
    Scripts.findBestMatch true [⟨str "q", str "a", [], none, none, none⟩]
      (str "   ") = none :=
  c2_null_fast_path true _ _ (Or.inl (by decide))

/-! ## Claim C5 -/

/-- C5: the selection loop tracks the maximum with strict greater-than, so
the first entry attaining the maximal score wins and a later entry with an
equal score never replaces the current best.  `e1` is the first maximal
entry of the collection `l1 ++ e1 :: l2`: every entry before it scores
strictly lower and every entry after it scores at most as much (in
particular, later entries may tie with `e1`).  Whenever its score reaches
the threshold, `scripts.js` returns `e1`'s reply. -/
theorem c5_first_entry_wins (l1 : List KnowledgeEntry)
    (e1 : KnowledgeEntry) (l2 : List KnowledgeEntry)
    (msg : List Char) (hmsg : msg ≠ [])
    (hbefore : ∀ e ∈ l1, Scripts.entryScore msg e < Scripts.entryScore msg e1)
    (hafter : ∀ e ∈ l2, Scripts.entryScore msg e ≤ Scripts.entryScore msg e1)
    (hth : 1 ≤ Scripts.entryScore msg e1) :
    Scripts.findBestMatch true (l1 ++ e1 :: l2) msg =
      some (Scripts.formatReply e1) := by
  unfold Scripts.findBestMatch
  rw [if_neg (by simp [hmsg])]
  have hacc : (List.foldl (bestStep (Scripts.entryScore msg))
      ((none : Option KnowledgeEntry), (0 : Int)) l1).2 <
      Scripts.entryScore msg e1 := by
    rcases (foldBest_spec (Scripts.entryScore msg) l1 (none, 0)).2.2 with
      heq | ⟨e, he, _, hval⟩
    · rw [heq]
      show (0 : Int) < Scripts.entryScore msg e1
      omega
    · rw [hval]
      exact hbefore e he
  have hrb : runBest (0 : Int) (Scripts.entryScore msg) (l1 ++ e1 :: l2) =
      (some e1, Scripts.entryScore msg e1) := by
    show List.foldl (bestStep (Scripts.entryScore msg)) (none, 0)
      (l1 ++ e1 :: l2) = (some e1, Scripts.entryScore msg e1)
    rw [List.foldl_append, List.foldl_cons]
    have hstep : bestStep (Scripts.entryScore msg)
        (List.foldl (bestStep (Scripts.entryScore msg)) (none, 0) l1) e1 =
        (some e1, Scripts.entryScore msg e1) := by
      show (if (List.foldl (bestStep (Scripts.entryScore msg))
            (none, 0) l1).2 < Scripts.entryScore msg e1
          then (some e1, Scripts.entryScore msg e1)
          else List.foldl (bestStep (Scripts.entryScore msg)) (none, 0) l1) =
        (some e1, Scripts.entryScore msg e1)
      rw [if_pos hacc]
    rw [hstep]
    exact foldBest_frozen _ l2 (some e1, Scripts.entryScore msg e1) hafter
  rw [hrb]
  show (if 1 ≤ Scripts.entryScore msg e1 then some (Scripts.formatReply e1)
    else none) = some (Scripts.formatReply e1)
  rw [if_pos hth]

/-- C5 witness: a tied winning pair (both score 6) preceded by a
lower-scoring entry (score 3); the matcher returns the reply of the first
of the two tied maximal entries. -/
theorem c5_witness :
    Scripts.findBestMatch true
      [⟨str "twin", str "A0", [], none, none, none⟩,
       ⟨str "twin health", str "A1", [], none, none, none⟩,
       ⟨str "health twin", str "A2", [], none, none, none⟩]
      (str "twin health") =
    some (Scripts.formatReply
      ⟨str "twin health", str "A1", [], none, none, none⟩) :=
  c5_first_entry_wins [⟨str "twin", str "A0", [], none, none, none⟩]
    ⟨str "twin health", str "A1", [], none, none, none⟩
    [⟨str "health twin", str "A2", [], none, none, none⟩]
    (str "twin health") (by decide) (by decide) (by decide) (by decide)

/-! ## Claim C9 -/

/-- C9: `findBestMatch` never mutates the knowledge base.  The function
only reads the `kbEntries` and `kbLoaded` globals, so in state-passing form
the state after the call — in particular the entry collection and every
entry in it — is exactly the state before the call. -/
theorem c9_no_mutation (st : ScriptsState) (msg : List Char) :
    (Scripts.findBestMatchS st msg).2 = st ∧
    (Scripts.findBestMatchS st msg).2.kbEntries = st.kbEntries :=
  ⟨rfl, rfl⟩

/-! ## Claim C6 -/

/-- C6 counterexample: in `scripts.js` the claim fails.  The user message
is "twin"; the entry already carries the tag "twin care", whose tokens
include "twin".  Adding the tag "twin" — a tag exactly equal to the user
message, so certainly matching it — leaves the computed score unchanged at
2, because the tag term only tests membership of each message token in the
pooled tag-token list, which already contained "twin". -/
theorem c6_counterexample :
    Scripts.entryScore (str "twin")
      ⟨str "", str "", [str "twin", str "twin care"], none, none, none⟩ =
    Scripts.entryScore (str "twin")
      ⟨str "", str "", [str "twin care"], none, none, none⟩ ∧
    ¬ (Scripts.entryScore (str "twin")
      ⟨str "", str "", [str "twin care"], none, none, none⟩ <
      Scripts.entryScore (str "twin")
      ⟨str "", str "", [str "twin", str "twin care"], none, none, none⟩) := by
  constructor
  · decide
  · decide

/-- C6 amended: in the per-tag scoring variants, adding a tag that matches
the user message strictly increases the entry's score; stated here for the
simple variant, where a tag matches when the processed message contains the
lowercased tag text, and each matching tag adds its own weight 2.  In the
token-overlap variant of `scripts.js` the increase can fail when an
existing tag already supplies the same tokens (see the counterexample). -/
theorem c6_matching_tag_increases (message : List Char) (e : KnowledgeEntry)
    (t : List Char) (h : containsSub message (t.map Char.toLower) = true) :
    Simple.entryScore message e <
    Simple.entryScore message
      ⟨e.question, e.answer, t :: e.tags, e.category, e.source,
        e.last_updated⟩ := by
  unfold Simple.entryScore Simple.baseScore Simple.sourceTruthy
  dsimp only
  simp only [List.map_cons, List.filter_cons, h, if_true, List.length_cons]
  push_cast
  linarith

/-- C6 witness: the tag "twin" matches the message "twin" and adding it
strictly increases the simple-variant score. -/
theorem c6_witness :
    Simple.entryScore (str "twin") ⟨str "", str "", [], none, none, none⟩ <
    Simple.entryScore (str "twin")
      ⟨str "", str "", [str "twin"], none, none, none⟩ :=
  c6_matching_tag_increases (str "twin") ⟨str "", str "", [], none, none, none⟩
    (str "twin") (by decide)

/-! ## Acceptance helper for the weighted matcher -/

theorem weighted_accept (kbEntries : List KnowledgeEntry) (msg : List Char)
    (e : KnowledgeEntry) (s : Rat)
    (hguard : ¬ (true = false ∨ msg = [] ∨ (jsTrim msg).length < 2))
    (hrb : runBest (0 : Rat) (Weighted.entryScore msg) kbEntries = (some e, s))
    (hth : (50 : Rat) ≤ s) :
    Weighted.findBestMatch true kbEntries msg =
      some ⟨e.answer, Weighted.sourceLabel e, s⟩ := by
  unfold Weighted.findBestMatch
  rw [if_neg hguard, hrb]
  show (if (50 : Rat) ≤ s
      then some (⟨e.answer, Weighted.sourceLabel e, s⟩ : MatchResult)
      else none) =
    some (⟨e.answer, Weighted.sourceLabel e, s⟩ : MatchResult)
  rw [if_pos hth]

/-! ## Claim C4 -/

/-- C4: once the input guards are passed, a match is accepted exactly when
the winning score of the selection loop meets or exceeds the fixed
threshold 50: a best score exactly at 50 is accepted, any best score below
50 makes `findBestMatch` return null regardless of which entry scored
highest. -/
theorem c4_threshold_boundary (entries : List KnowledgeEntry)
    (msg : List Char) (hmsg : msg ≠ []) (hlen : ¬ (jsTrim msg).length < 2) :
    (Weighted.findBestMatch true entries msg ≠ none ↔
      50 ≤ (runBest (0 : Rat) (Weighted.entryScore msg) entries).2) := by
  unfold Weighted.findBestMatch
  rw [if_neg (by simp [hmsg, hlen])]
  rcases hrb : runBest (0 : Rat) (Weighted.entryScore msg) entries with ⟨b, s⟩
  cases b with
  | some e =>
    show ((if (50 : Rat) ≤ s
        then some (⟨e.answer, Weighted.sourceLabel e, s⟩ : MatchResult)
        else none) ≠ none ↔ 50 ≤ s)
    by_cases hs : (50 : Rat) ≤ s
    · rw [if_pos hs]
      simpa using hs
    · rw [if_neg hs]
      simpa using hs
  | none =>
    show ((none : Option MatchResult) ≠ none ↔ 50 ≤ s)
    have hz : s = 0 := by
      have h2 := runBest_none (0 : Rat) (Weighted.entryScore msg) entries
        (by rw [hrb])
      rw [hrb] at h2
      simpa using h2
    subst hz
    norm_num

/-- C4 witness: instantiated at a loaded singleton collection and a
non-degenerate message. -/
theorem c4_witness :
    Weighted.findBestMatch true
      [⟨str "twin health", str "A1", [], none, none, none⟩]
      (str "twin health") ≠ none ↔
    50 ≤ (runBest (0 : Rat)
      (Weighted.entryScore (str "twin health"))
      [⟨str "twin health", str "A1", [], none, none, none⟩]).2 :=
  c4_threshold_boundary _ _ (by decide) (by decide)

/-! ## Claim C1 -/

/-- C1 amended: for a singleton entry collection (knowledge base loaded)
and a user message exactly equal to the entry's question (of trimmed length
at least 2), the weighted matcher returns that entry's answer: the
containment bonus alone contributes 500, far above the threshold 50.  With
more than one entry this can fail, because another entry may accumulate a
strictly higher score and win (see the counterexample). -/
theorem c1_exact_match_singleton (e : KnowledgeEntry) (msg : List Char)
    (hq : msg = e.question) (hlen : ¬ (jsTrim msg).length < 2) :
    ∃ r, Weighted.findBestMatch true [e] msg = some r ∧
      r.answer = e.answer := by
  have hmsg : msg ≠ [] := by
    intro hnil
    rw [hnil] at hlen
    exact hlen (by decide)
  have hscore := weighted_entryScore_ge_of_exact msg e hq
  have hrb : runBest (0 : Rat) (Weighted.entryScore msg) [e] =
      (some e, Weighted.entryScore msg e) :=
    runBest_first 0 _ e [] (by linarith) (by intro x hx; simp at hx)
  exact ⟨⟨e.answer, Weighted.sourceLabel e, Weighted.entryScore msg e⟩,
    weighted_accept [e] msg e _ (by simp [hmsg, hlen]) hrb (by linarith), rfl⟩

/-- C1 witness: a singleton collection queried with exactly the entry's
question returns that entry's answer. -/
theorem c1_witness :
    ∃ r, Weighted.findBestMatch true
      [⟨str "what is twin health", str "It is a care platform",
        [], none, none, none⟩] (str "what is twin health") = some r ∧
      r.answer = (⟨str "what is twin health", str "It is a care platform",
        [], none, none, none⟩ : KnowledgeEntry).answer :=
  c1_exact_match_singleton _ _ rfl (by decide)

/-- C1 counterexample: with two entries and a user message exactly equal to
the first entry's question, the weighted matcher returns the second entry's
answer, not the first's.  The second entry's question contains the message
(containment bonus 500) and its tag equals the message (tag bonus 300), for
a total of 800 against the first entry's 500 — even though the containment
bonus alone (500) exceeds the threshold (50). -/
theorem c1_counterexample :
    (str "twin health") =
      (⟨str "twin health", str "A1", [], none, none, none⟩ :
        KnowledgeEntry).question ∧
    Weighted.findBestMatch true
      [⟨str "twin health", str "A1", [], none, none, none⟩,
       ⟨str "about twin health info", str "A2", [str "twin health"],
         none, none, none⟩]
      (str "twin health") =
      some ⟨str "A2", str "Twin Health Knowledge Base", 800⟩ ∧
    (str "A2") ≠ (str "A1") := by
  refine ⟨rfl, ?_, by decide⟩
  have hq1 : Weighted.calculateSimilarity (str "twin health")
      (str "twin health") = 100 :=
    calculateSimilarity_contains _ _ (by decide)
  have ha1 : Weighted.calculateSimilarity (str "twin health")
      (str "A1") = 0 := by
    rw [calculateSimilarity_overlap _ _ (by decide) (by decide)]
    rw [show ((Weighted.extractKeywords (str "twin health")).filter fun w =>
      (Weighted.extractKeywords (str "A1")).contains w).length = 0 from by decide]
    norm_num
  have ha2 : Weighted.calculateSimilarity (str "twin health")
      (str "A2") = 0 := by
    rw [calculateSimilarity_overlap _ _ (by decide) (by decide)]
    rw [show ((Weighted.extractKeywords (str "twin health")).filter fun w =>
      (Weighted.extractKeywords (str "A2")).contains w).length = 0 from by decide]
    norm_num
  have hq2 : Weighted.calculateSimilarity (str "twin health")
      (str "about twin health info") = 100 :=
    calculateSimilarity_contains _ _ (by decide)
  have hs1 : Weighted.entryScore (str "twin health")
      ⟨str "twin health", str "A1", [], none, none, none⟩ = 500 := by
    unfold Weighted.entryScore
    dsimp only
    rw [hq1, ha1]
    norm_num
  have hs2 : Weighted.entryScore (str "twin health")
      ⟨str "about twin health info", str "A2", [str "twin health"],
        none, none, none⟩ = 800 := by
    unfold Weighted.entryScore
    dsimp only
    simp only [List.map_cons, List.map_nil, List.sum_cons, List.sum_nil]
    rw [hq2, ha2, hq1]
    norm_num
  have hb1 : bestStep (Weighted.entryScore (str "twin health"))
      ((none : Option KnowledgeEntry), (0 : Rat))
      ⟨str "twin health", str "A1", [], none, none, none⟩ =
      (some ⟨str "twin health", str "A1", [], none, none, none⟩, 500) := by
    unfold bestStep
    rw [hs1]
    norm_num
  have hb2 : bestStep (Weighted.entryScore (str "twin health"))
      (some ⟨str "twin health", str "A1", [], none, none, none⟩, (500 : Rat))
      ⟨str "about twin health info", str "A2", [str "twin health"],
        none, none, none⟩ =
      (some ⟨str "about twin health info", str "A2", [str "twin health"],
        none, none, none⟩, 800) := by
    unfold bestStep
    rw [hs2]
    norm_num
  have hrb : runBest (0 : Rat) (Weighted.entryScore (str "twin health"))
      [⟨str "twin health", str "A1", [], none, none, none⟩,
       ⟨str "about twin health info", str "A2", [str "twin health"],
         none, none, none⟩] =
      (some ⟨str "about twin health info", str "A2", [str "twin health"],
        none, none, none⟩, 800) := by
    unfold runBest
    rw [List.foldl_cons, hb1, List.foldl_cons, hb2, List.foldl_nil]
  have := weighted_accept _ _ _ _ (by decide) hrb (by norm_num)
  exact this

/-! ## Claim C3 -/

/-- C3 counterexample: the containment bonus (100) is not an order of
magnitude larger than every per-token weight.  A message with exactly one
keyword earns the full word-overlap score 80 from that single token when it
matches, so the largest per-token weight is 80, and 100 < 10 * 80. -/
theorem c3_counterexample :
    Weighted.calculateSimilarity (str "the insulin")
      (str "insulin resistance overview") = 80 ∧
    (Weighted.extractKeywords (str "the insulin")).length = 1 ∧
    Weighted.calculateSimilarity (str "that insulin") (str "that insulin")
      = 100 ∧
    ¬ ((10 : Rat) * 80 ≤ 100) := by
  refine ⟨?_, by decide, calculateSimilarity_contains _ _ (by decide),
    by norm_num⟩
  rw [calculateSimilarity_overlap _ _ (by decide) (by decide)]
  rw [show ((Weighted.extractKeywords (str "the insulin")).filter fun w =>
    (Weighted.extractKeywords (str "insulin resistance overview")).contains
      w).length = 1 from by decide]
  rw [show (Weighted.extractKeywords (str "the insulin")).length = 1 from
    by decide]
  norm_num

/-- C3 amended: when the normalized user message and entry text contain one
another (in either direction), `calculateSimilarity` returns the fixed
bonus 100; every non-containment similarity is at most 80, so the
containment bonus strictly dominates the per-field word-overlap scoring —
but it is only a factor 1.25, not an order of magnitude, above the largest
possible per-token contribution. -/
theorem c3_containment_bonus (u k : List Char)
    (h : (containsSub (Weighted.normalizeText k) (Weighted.normalizeText u) ||
      containsSub (Weighted.normalizeText u) (Weighted.normalizeText k)) = true) :
    Weighted.calculateSimilarity u k = 100 ∧
    ∀ u' k', Weighted.calculateSimilarity u' k' = 100 ∨
      Weighted.calculateSimilarity u' k' ≤ 80 :=
  ⟨calculateSimilarity_contains u k h, calculateSimilarity_100_or_le_80⟩

/-- C3 witness: instantiated at a containment pair. -/
theorem c3_witness :
    Weighted.calculateSimilarity (str "twin health")
      (str "what is twin health") = 100 ∧
    ∀ u' k', Weighted.calculateSimilarity u' k' = 100 ∨
      Weighted.calculateSimilarity u' k' ≤ 80 :=
  c3_containment_bonus _ _ (by decide)

/-! ## Claim C10 -/

theorem weighted_result_invariants (kb : Bool) (entries : List KnowledgeEntry)
    (msg : List Char) (r : MatchResult)
    (h : Weighted.findBestMatch kb entries msg = some r) :
    ∃ e ∈ entries, r.answer = e.answer ∧
      r.score = Weighted.entryScore msg e ∧ 50 ≤ r.score ∧
      ∀ e2 ∈ entries,
        Weighted.entryScore msg e2 ≤ Weighted.entryScore msg e := by
  unfold Weighted.findBestMatch at h
  by_cases hg : (kb = false ∨ msg = [] ∨ (jsTrim msg).length < 2)
  · rw [if_pos hg] at h
    exact Option.noConfusion h
  · rw [if_neg hg] at h
    rcases hrb : runBest (0 : Rat) (Weighted.entryScore msg) entries with ⟨b, s⟩
    rw [hrb] at h
    cases b with
    | none => exact Option.noConfusion h
    | some e =>
      by_cases hs : (50 : Rat) ≤ s
      · have h2 : some (⟨e.answer, Weighted.sourceLabel e, s⟩ : MatchResult) =
            some r := by
          rw [← h]
          show some (⟨e.answer, Weighted.sourceLabel e, s⟩ : MatchResult) =
            if (50 : Rat) ≤ s
            then some (⟨e.answer, Weighted.sourceLabel e, s⟩ : MatchResult)
            else none
          rw [if_pos hs]
        have hr : r = ⟨e.answer, Weighted.sourceLabel e, s⟩ :=
          (Option.some.injEq _ _ ▸ h2).symm
        obtain ⟨hmem, hval⟩ := runBest_mem (0 : Rat)
          (Weighted.entryScore msg) entries e (by rw [hrb])
        rw [hrb] at hval
        have hval2 : s = Weighted.entryScore msg e := by simpa using hval
        refine ⟨e, hmem, by rw [hr], by rw [hr]; exact hval2, ?_, ?_⟩
        · rw [hr]
          exact hs
        · intro e2 he2
          have hle := runBest_le (0 : Rat) (Weighted.entryScore msg)
            entries e2 he2
          rw [hrb] at hle
          have : Weighted.entryScore msg e2 ≤ s := by simpa using hle
          calc Weighted.entryScore msg e2 ≤ s := this
            _ = Weighted.entryScore msg e := hval2
      · have h2 : (none : Option MatchResult) = some r := by
          rw [← h]
          show (none : Option MatchResult) =
            if (50 : Rat) ≤ s
            then some (⟨e.answer, Weighted.sourceLabel e, s⟩ : MatchResult)
            else none
          rw [if_neg hs]
        exact Option.noConfusion h2

theorem c10_eval_aux :
    Weighted.findBestMatch true
      [⟨str "twin health", str "A1", [], none, none, none⟩]
      (str "twin health") =
      some ⟨str "A1", str "Twin Health Knowledge Base", 500⟩ := by
  have hq1 : Weighted.calculateSimilarity (str "twin health")
      (str "twin health") = 100 :=
    calculateSimilarity_contains _ _ (by decide)
  have ha1 : Weighted.calculateSimilarity (str "twin health")
      (str "A1") = 0 := by
    rw [calculateSimilarity_overlap _ _ (by decide) (by decide)]
    rw [show ((Weighted.extractKeywords (str "twin health")).filter fun w =>
      (Weighted.extractKeywords (str "A1")).contains w).length = 0 from
      by decide]
    norm_num
  have hs1 : Weighted.entryScore (str "twin health")
      ⟨str "twin health", str "A1", [], none, none, none⟩ = 500 := by
    unfold Weighted.entryScore
    dsimp only
    rw [hq1, ha1]
    norm_num
  have hb1 : bestStep (Weighted.entryScore (str "twin health"))
      ((none : Option KnowledgeEntry), (0 : Rat))
      ⟨str "twin health", str "A1", [], none, none, none⟩ =
      (some ⟨str "twin health", str "A1", [], none, none, none⟩, 500) := by
    unfold bestStep
    rw [hs1]
    norm_num
  have hrb : runBest (0 : Rat) (Weighted.entryScore (str "twin health"))
      [⟨str "twin health", str "A1", [], none, none, none⟩] =
      (some ⟨str "twin health", str "A1", [], none, none, none⟩, 500) := by
    unfold runBest
    rw [List.foldl_cons, hb1, List.foldl_nil]
  exact weighted_accept _ _ _ _ (by decide) hrb (by norm_num)

theorem scripts_result_invariants (kb : Bool) (entries : List KnowledgeEntry)
    (msg : List Char) (s : List Char)
    (h : Scripts.findBestMatch kb entries msg = some s) :
    ∃ e ∈ entries, s = Scripts.formatReply e ∧
      1 ≤ Scripts.entryScore msg e ∧
      ∀ e2 ∈ entries,
        Scripts.entryScore msg e2 ≤ Scripts.entryScore msg e := by
  unfold Scripts.findBestMatch at h
  by_cases hg : (kb = false ∨ msg = [])
  · rw [if_pos hg] at h
    exact Option.noConfusion h
  · rw [if_neg hg] at h
    rcases hrb : runBest (0 : Int) (Scripts.entryScore msg) entries with ⟨b, sc⟩
    rw [hrb] at h
    cases b with
    | none => exact Option.noConfusion h
    | some e =>
      by_cases hs : (1 : Int) ≤ sc
      · have h2 : some (Scripts.formatReply e) = some s := by
          rw [← h]
          show some (Scripts.formatReply e) =
            if (1 : Int) ≤ sc then some (Scripts.formatReply e) else none
          rw [if_pos hs]
        have hr : s = Scripts.formatReply e :=
          (Option.some.injEq _ _ ▸ h2).symm
        obtain ⟨hmem, hval⟩ := runBest_mem (0 : Int)
          (Scripts.entryScore msg) entries e (by rw [hrb])
        rw [hrb] at hval
        have hval2 : sc = Scripts.entryScore msg e := by simpa using hval
        refine ⟨e, hmem, hr, by rw [← hval2]; exact hs, ?_⟩
        intro e2 he2
        have hle := runBest_le (0 : Int) (Scripts.entryScore msg)
          entries e2 he2
        rw [hrb] at hle
        have : Scripts.entryScore msg e2 ≤ sc := by simpa using hle
        calc Scripts.entryScore msg e2 ≤ sc := this
          _ = Scripts.entryScore msg e := hval2
      · have h2 : (none : Option (List Char)) = some s := by
          rw [← h]
          show (none : Option (List Char)) =
            if (1 : Int) ≤ sc then some (Scripts.formatReply e) else none
          rw [if_neg hs]
        exact Option.noConfusion h2

/-- C10: whenever `findBestMatch` returns a non-null result, the answer
text it carries is the answer field of some entry of the supplied
collection, that entry's computed score is maximal over the collection and
meets the acceptance threshold; in the weighted variant the score reported
in the result equals that entry's computed score, and in the `scripts.js`
variant the returned reply is built verbatim from that entry's answer. -/
theorem c10_result_invariants (kb : Bool) (entries : List KnowledgeEntry)
    (msg : List Char) :
    (∀ r, Weighted.findBestMatch kb entries msg = some r →
      ∃ e ∈ entries, r.answer = e.answer ∧
        r.score = Weighted.entryScore msg e ∧ 50 ≤ r.score ∧
        ∀ e2 ∈ entries,
          Weighted.entryScore msg e2 ≤ Weighted.entryScore msg e) ∧
    (∀ s, Scripts.findBestMatch kb entries msg = some s →
      ∃ e ∈ entries, s = Scripts.formatReply e ∧
        1 ≤ Scripts.entryScore msg e ∧
        ∀ e2 ∈ entries,
          Scripts.entryScore msg e2 ≤ Scripts.entryScore msg e) :=
  ⟨fun r h => weighted_result_invariants kb entries msg r h,
   fun s h => scripts_result_invariants kb entries msg s h⟩

/-- C10 witness: instantiated at concrete accepted matches of both
variants. -/
theorem c10_witness :
    (∃ e ∈ [(⟨str "twin health", str "A1", [], none, none, none⟩ :
        KnowledgeEntry)],
      (⟨str "A1", str "Twin Health Knowledge Base", 500⟩ :
        MatchResult).answer = e.answer ∧
      (⟨str "A1", str "Twin Health Knowledge Base", 500⟩ :
        MatchResult).score = Weighted.entryScore (str "twin health") e ∧
      50 ≤ (⟨str "A1", str "Twin Health Knowledge Base", 500⟩ :
        MatchResult).score ∧
      ∀ e2 ∈ [(⟨str "twin health", str "A1", [], none, none, none⟩ :
          KnowledgeEntry)],
        Weighted.entryScore (str "twin health") e2 ≤
          Weighted.entryScore (str "twin health") e) ∧
    (∃ e ∈ [(⟨str "twin", str "A1", [], none, none, none⟩ :
        KnowledgeEntry)],
      Scripts.formatReply ⟨str "twin", str "A1", [], none, none, none⟩ =
        Scripts.formatReply e ∧
      1 ≤ Scripts.entryScore (str "twin") e ∧
      ∀ e2 ∈ [(⟨str "twin", str "A1", [], none, none, none⟩ :
          KnowledgeEntry)],
        Scripts.entryScore (str "twin") e2 ≤
          Scripts.entryScore (str "twin") e) :=
  ⟨(c10_result_invariants true
      [⟨str "twin health", str "A1", [], none, none, none⟩]
      (str "twin health")).1 _ c10_eval_aux,
   (c10_result_invariants true
      [⟨str "twin", str "A1", [], none, none, none⟩] (str "twin")).2
      (Scripts.formatReply ⟨str "twin", str "A1", [], none, none, none⟩)
      (by decide)⟩

/-! ## Claim C7 -/

theorem simple_baseScore_scaled (m : List Char) (e : KnowledgeEntry) :
    Simple.baseScore m e = (Simple.scaledBase m e : Rat) / 10 := by
  unfold Simple.baseScore Simple.scaledBase
  by_cases h : containsSub (e.question.map Char.toLower) m = true ∧
    3 < m.length
  · rw [if_pos h, if_pos h]
    push_cast
    ring
  · rw [if_neg h, if_neg h]
    push_cast
    ring

/-- C7 amended: every base score of the simple variant is an integer
multiple of one tenth, so the 0.1 source bonus is less than or equal to —
but not strictly smaller than — every non-zero difference between two
entries' base scores.  The bonus can therefore never make a strictly
lower-scoring entry overtake, but it can exactly equalize a 0.1 deficit,
in which case iteration order decides (see the counterexample). -/
theorem c7_epsilon_bound (m : List Char) (e1 e2 : KnowledgeEntry)
    (h : Simple.scaledBase m e1 ≠ Simple.scaledBase m e2) :
    Simple.baseScore m e1 = (Simple.scaledBase m e1 : Rat) / 10 ∧
    Simple.baseScore m e2 = (Simple.scaledBase m e2 : Rat) / 10 ∧
    (1 : Rat) / 10 ≤ |Simple.baseScore m e1 - Simple.baseScore m e2| ∧
    Simple.entryScore m e1 - Simple.baseScore m e1 ≤ 1 / 10 := by
  refine ⟨simple_baseScore_scaled m e1, simple_baseScore_scaled m e2, ?_, ?_⟩
  · rw [simple_baseScore_scaled m e1, simple_baseScore_scaled m e2]
    have hz : ((Simple.scaledBase m e1 : Int) -
        (Simple.scaledBase m e2 : Int)) ≠ 0 := by
      intro h0
      apply h
      omega
    have h2 : (1 : Int) ≤ |(Simple.scaledBase m e1 : Int) -
        (Simple.scaledBase m e2 : Int)| := Int.one_le_abs hz
    have h3 : (1 : Rat) ≤ |(Simple.scaledBase m e1 : Rat) -
        (Simple.scaledBase m e2 : Rat)| := by
      have h4 : (((1 : Int) : Rat)) ≤ ((|(Simple.scaledBase m e1 : Int) -
          (Simple.scaledBase m e2 : Int)| : Int) : Rat) := Int.cast_le.mpr h2
      rw [Int.cast_abs] at h4
      push_cast at h4
      simpa using h4
    rw [div_sub_div_same, abs_div, show |(10 : Rat)| = 10 from by norm_num]
    have h10 : (0 : Rat) < 10 := by norm_num
    rw [div_le_div_iff₀ h10 h10]
    nlinarith [h3]
  · unfold Simple.entryScore
    by_cases hsrc : Simple.sourceTruthy e1 = true
    · rw [if_pos hsrc]
      linarith
    · rw [if_neg hsrc]
      linarith

/-- C7 counterexample: base scores are multiples of 0.1, and the minimal
non-zero difference 0.1 equals the source bonus, so the bonus is not
strictly smaller than every non-zero difference of the other scoring
terms.  Concretely, against "alpha beta gamma" a tagged entry's other terms
score 2.0 and a three-token-overlap entry's other terms score 2.1; the
difference is exactly 0.1.  The final conjunct shows the flip: with the
2.0-entry first and carrying a source, the matcher returns it even though
the other entry's genuine (base) score is strictly higher. -/
theorem c7_counterexample :
    Simple.baseScore (str "alpha beta gamma")
      ⟨str "", str "B-answer", [str "alpha"], none, some (str "FAQ"), none⟩
      = 2 ∧
    Simple.baseScore (str "alpha beta gamma")
      ⟨str "gamma beta alpha", str "A-answer", [], none, none, none⟩
      = 21 / 10 ∧
    Simple.entryScore (str "alpha beta gamma")
      ⟨str "", str "B-answer", [str "alpha"], none, some (str "FAQ"), none⟩ -
    Simple.baseScore (str "alpha beta gamma")
      ⟨str "", str "B-answer", [str "alpha"], none, some (str "FAQ"), none⟩
      = 1 / 10 ∧
    ¬ ((1 : Rat) / 10 < |(2 : Rat) - 21 / 10|) ∧
    Simple.findBestMatch true
      [⟨str "", str "B-answer", [str "alpha"], none, some (str "FAQ"), none⟩,
       ⟨str "gamma beta alpha", str "A-answer", [], none, none, none⟩]
      (str "alpha beta gamma") =
      some (Simple.formatReply
        ⟨str "", str "B-answer", [str "alpha"], none, some (str "FAQ"),
          none⟩) := by
  have hbA : Simple.baseScore (str "alpha beta gamma")
      ⟨str "", str "B-answer", [str "alpha"], none, some (str "FAQ"), none⟩
      = 2 := by
    rw [simple_baseScore_scaled, show Simple.scaledBase (str "alpha beta gamma")
      ⟨str "", str "B-answer", [str "alpha"], none, some (str "FAQ"), none⟩
      = 20 from by decide]
    norm_num
  have hbB : Simple.baseScore (str "alpha beta gamma")
      ⟨str "gamma beta alpha", str "A-answer", [], none, none, none⟩
      = 21 / 10 := by
    rw [simple_baseScore_scaled, show Simple.scaledBase (str "alpha beta gamma")
      ⟨str "gamma beta alpha", str "A-answer", [], none, none, none⟩
      = 21 from by decide]
    norm_num
  have heA : Simple.entryScore (str "alpha beta gamma")
      ⟨str "", str "B-answer", [str "alpha"], none, some (str "FAQ"), none⟩
      = 21 / 10 := by
    unfold Simple.entryScore
    rw [hbA, if_pos (by decide)]
    norm_num
  have heB : Simple.entryScore (str "alpha beta gamma")
      ⟨str "gamma beta alpha", str "A-answer", [], none, none, none⟩
      = 21 / 10 := by
    unfold Simple.entryScore
    rw [hbB, if_neg (by decide)]
    norm_num
  refine ⟨hbA, hbB, ?_, ?_, ?_⟩
  · rw [heA, hbA]
    norm_num
  · rw [show (2 : Rat) - 21 / 10 = -(1 / 10) from by norm_num, abs_neg,
      abs_of_nonneg (by norm_num : (0 : Rat) ≤ 1 / 10)]
    norm_num
  · simp only [Simple.findBestMatch]
    rw [show jsTrim ((str "alpha beta gamma").map Char.toLower) =
      str "alpha beta gamma" from by decide]
    rw [if_neg (by decide)]
    have hb1 : bestStep (Simple.entryScore (str "alpha beta gamma"))
        ((none : Option KnowledgeEntry), (0 : Rat))
        ⟨str "", str "B-answer", [str "alpha"], none, some (str "FAQ"),
          none⟩ =
        (some ⟨str "", str "B-answer", [str "alpha"], none,
          some (str "FAQ"), none⟩, 21 / 10) := by
      unfold bestStep
      rw [heA]
      norm_num
    have hb2 : bestStep (Simple.entryScore (str "alpha beta gamma"))
        (some ⟨str "", str "B-answer", [str "alpha"], none,
          some (str "FAQ"), none⟩, (21 / 10 : Rat))
        ⟨str "gamma beta alpha", str "A-answer", [], none, none, none⟩ =
        (some ⟨str "", str "B-answer", [str "alpha"], none,
          some (str "FAQ"), none⟩, 21 / 10) := by
      unfold bestStep
      rw [heB]
      norm_num
    rw [show runBest (0 : Rat) (Simple.entryScore (str "alpha beta gamma"))
        [⟨str "", str "B-answer", [str "alpha"], none, some (str "FAQ"),
          none⟩,
         ⟨str "gamma beta alpha", str "A-answer", [], none, none, none⟩] =
        (some ⟨str "", str "B-answer", [str "alpha"], none,
          some (str "FAQ"), none⟩, 21 / 10) from by
      unfold runBest
      rw [List.foldl_cons, hb1, List.foldl_cons, hb2, List.foldl_nil]]
    show (if (1 : Rat) ≤ 21 / 10 then _ else none) = _
    rw [if_pos (by norm_num)]

/-- C7 witness: two concrete entries whose scaled base scores differ (20
and 21). -/
theorem c7_witness :
    Simple.baseScore (str "alpha beta gamma")
      ⟨str "", str "B-answer", [str "alpha"], none, some (str "FAQ"), none⟩ =
      ((Simple.scaledBase (str "alpha beta gamma")
        ⟨str "", str "B-answer", [str "alpha"], none, some (str "FAQ"),
          none⟩ : Nat) : Rat) / 10 ∧
    Simple.baseScore (str "alpha beta gamma")
      ⟨str "gamma beta alpha", str "A-answer", [], none, none, none⟩ =
      ((Simple.scaledBase (str "alpha beta gamma")
        ⟨str "gamma beta alpha", str "A-answer", [], none, none,
          none⟩ : Nat) : Rat) / 10 ∧
    (1 : Rat) / 10 ≤ |Simple.baseScore (str "alpha beta gamma")
      ⟨str "", str "B-answer", [str "alpha"], none, some (str "FAQ"), none⟩ -
      Simple.baseScore (str "alpha beta gamma")
      ⟨str "gamma beta alpha", str "A-answer", [], none, none, none⟩| ∧
    Simple.entryScore (str "alpha beta gamma")
      ⟨str "", str "B-answer", [str "alpha"], none, some (str "FAQ"), none⟩ -
    Simple.baseScore (str "alpha beta gamma")
      ⟨str "", str "B-answer", [str "alpha"], none, some (str "FAQ"), none⟩
      ≤ 1 / 10 :=
  c7_epsilon_bound (str "alpha beta gamma")
    ⟨str "", str "B-answer", [str "alpha"], none, some (str "FAQ"), none⟩
    ⟨str "gamma beta alpha", str "A-answer", [], none, none, none⟩
    (by decide)

/-! ## Claim C8 -/

theorem mem_of_jsTrim {m : List Char} {c : Char} (h : c ∈ jsTrim m) :
    c ∈ m := by
  unfold jsTrim at h
  rw [List.mem_reverse] at h
  have h2 := mem_of_dropWhile h
  rw [List.mem_reverse] at h2
  exact mem_of_dropWhile h2

theorem collapseAux_mem : ∀ (l : List Char) (b : Bool) (c : Char),
    c ∈ collapseAux b l → c = ' ' ∨ (c ∈ l ∧ isSpaceChar c = false) := by
  intro l
  induction l with
  | nil =>
    intro b c h
    simp [collapseAux] at h
  | cons x xs ih =>
    intro b c h
    rw [show collapseAux b (x :: xs) =
      if isSpaceChar x then
        (if b then collapseAux true xs else ' ' :: collapseAux true xs)
      else x :: collapseAux false xs from rfl] at h
    by_cases hx : isSpaceChar x = true
    · rw [if_pos hx] at h
      cases b with
      | true =>
        rcases ih true c (by simpa using h) with h1 | ⟨h1, h2⟩
        · exact Or.inl h1
        · exact Or.inr ⟨List.mem_cons_of_mem x h1, h2⟩
      | false =>
        have h' : c ∈ ' ' :: collapseAux true xs := by simpa using h
        rcases List.mem_cons.mp h' with rfl | hmem
        · exact Or.inl rfl
        · rcases ih true c hmem with h1 | ⟨h1, h2⟩
          · exact Or.inl h1
          · exact Or.inr ⟨List.mem_cons_of_mem x h1, h2⟩
    · rw [if_neg hx] at h
      rcases List.mem_cons.mp h with rfl | hmem
      · exact Or.inr ⟨List.mem_cons_self c xs, by simpa using hx⟩
      · rcases ih false c hmem with h1 | ⟨h1, h2⟩
        · exact Or.inl h1
        · exact Or.inr ⟨List.mem_cons_of_mem x h1, h2⟩

theorem collapseAux_true_head : ∀ (l : List Char) (c : Char) (t : List Char),
    collapseAux true l = c :: t → isSpaceChar c = false := by
  intro l
  induction l with
  | nil =>
    intro c t h
    simp [collapseAux] at h
  | cons x xs ih =>
    intro c t h
    rw [show collapseAux true (x :: xs) =
      if isSpaceChar x then collapseAux true xs
      else x :: collapseAux false xs from rfl] at h
    by_cases hx : isSpaceChar x = true
    · rw [if_pos hx] at h
      exact ih c t h
    · rw [if_neg hx] at h
      injection h with h1 _
      subst h1
      simpa using hx

theorem collapseAux_chain : ∀ (l : List Char) (b : Bool),
    List.Chain' (fun a b2 => ¬ (a = ' ' ∧ b2 = ' ')) (collapseAux b l) := by
  intro l
  induction l with
  | nil =>
    intro b
    simp [collapseAux]
  | cons x xs ih =>
    intro b
    rw [show collapseAux b (x :: xs) =
      if isSpaceChar x then
        (if b then collapseAux true xs else ' ' :: collapseAux true xs)
      else x :: collapseAux false xs from rfl]
    by_cases hx : isSpaceChar x = true
    · rw [if_pos hx]
      cases b with
      | true =>
        show List.Chain' (fun a b2 => ¬ (a = ' ' ∧ b2 = ' '))
          (collapseAux true xs)
        exact ih true
      | false =>
        show List.Chain' (fun a b2 => ¬ (a = ' ' ∧ b2 = ' '))
          (' ' :: collapseAux true xs)
        rw [List.chain'_cons']
        refine ⟨?_, ih true⟩
        intro y hy
        cases hh : collapseAux true xs with
        | nil =>
          rw [hh] at hy
          simp at hy
        | cons z t =>
          rw [hh] at hy
          simp at hy
          subst hy
          have hz := collapseAux_true_head xs z t hh
          intro hcontra
          rw [hcontra.2] at hz
          exact absurd hz (by decide)
    · rw [if_neg hx]
      rw [List.chain'_cons']
      refine ⟨?_, ih false⟩
      intro y _ hcontra
      rw [hcontra.1] at hx
      exact hx (by decide)

theorem chain_symm_rev {l : List Char}
    (h : List.Chain' (fun a b => ¬ (a = ' ' ∧ b = ' ')) l) :
    List.Chain' (fun a b => ¬ (a = ' ' ∧ b = ' ')) l.reverse := by
  rw [List.chain'_reverse]
  exact h.imp fun a b hab hc => hab ⟨hc.2, hc.1⟩

theorem jsTrim_chain {m : List Char}
    (h : List.Chain' (fun a b => ¬ (a = ' ' ∧ b = ' ')) m) :
    List.Chain' (fun a b => ¬ (a = ' ' ∧ b = ' ')) (jsTrim m) := by
  unfold jsTrim
  exact chain_symm_rev (List.Chain'.suffix
    (chain_symm_rev (List.Chain'.suffix h (List.dropWhile_suffix _)))
    (List.dropWhile_suffix _))

theorem jsTrim_head_not_space (m : List Char) (c : Char)
    (hc : (jsTrim m).head? = some c) : isSpaceChar c = false := by
  unfold jsTrim at hc
  rw [List.head?_reverse] at hc
  have hBne : ((m.dropWhile (isSpaceChar ·)).reverse.dropWhile
      (isSpaceChar ·)) ≠ [] := by
    intro h0
    rw [h0] at hc
    simp at hc
  have hgl := getLast?_of_suffix (List.dropWhile_suffix _) hBne
  rw [hgl, List.getLast?_reverse] at hc
  cases hA : m.dropWhile (isSpaceChar ·) with
  | nil =>
    rw [hA] at hc
    simp at hc
  | cons a t =>
    rw [hA] at hc
    simp at hc
    subst hc
    exact head_dropWhile hA

theorem jsTrim_getLast_not_space (m : List Char) (c : Char)
    (hc : (jsTrim m).getLast? = some c) : isSpaceChar c = false := by
  unfold jsTrim at hc
  rw [List.getLast?_reverse] at hc
  cases hB : (m.dropWhile (isSpaceChar ·)).reverse.dropWhile (isSpaceChar ·) with
  | nil =>
    rw [hB] at hc
    simp at hc
  | cons b t =>
    rw [hB] at hc
    simp at hc
    subst hc
    exact head_dropWhile hB

theorem normalizeText_chars (l : List Char) (c : Char)
    (h : c ∈ Weighted.normalizeText l) :
    (isWordChar c = true ∧ ¬ (65 ≤ c.toNat ∧ c.toNat ≤ 90)) ∨ c = ' ' := by
  unfold Weighted.normalizeText at h
  have h1 := mem_of_jsTrim h
  unfold collapseWs at h1
  rcases collapseAux_mem _ false c h1 with hsp | ⟨hmem, hns⟩
  · exact Or.inr hsp
  · rw [List.mem_map] at hmem
    obtain ⟨d, hd, hrepl⟩ := hmem
    rw [List.mem_map] at hd
    obtain ⟨x, _, rfl⟩ := hd
    by_cases hcond : (isWordChar (Char.toLower x) ||
        isSpaceChar (Char.toLower x)) = true
    · rw [if_pos hcond] at hrepl
      subst hrepl
      rcases Bool.or_eq_true_iff.mp hcond with hword | hspace
      · exact Or.inl ⟨hword, toLower_not_upper x⟩
      · rw [hspace] at hns
        exact absurd hns (by decide)
    · rw [if_neg hcond] at hrepl
      exact Or.inr hrepl.symm

/-- C8: `normalizeText` lowercases its input and replaces every character
outside `[A-Za-z0-9_]` and whitespace with a space, collapses whitespace
runs to one space and trims both ends.  Formalized: every character of the
output is a `\w` character that is not an ASCII uppercase letter, or a
single space; no two adjacent output characters are both spaces; the first
and last output characters are never spaces; the empty (null) input
normalizes to the empty string; and a concrete mixed input is normalized as
the specification describes.  The function is a pure Lean function, hence
deterministic and side-effect-free by construction. -/
theorem c8_normalize_spec (l : List Char) :
    Weighted.normalizeText [] = [] ∧
    (∀ c ∈ Weighted.normalizeText l,
      (isWordChar c = true ∧ ¬ (65 ≤ c.toNat ∧ c.toNat ≤ 90)) ∨ c = ' ') ∧
    List.Chain' (fun a b => ¬ (a = ' ' ∧ b = ' '))
      (Weighted.normalizeText l) ∧
    (∀ c, (Weighted.normalizeText l).head? = some c → c ≠ ' ') ∧
    (∀ c, (Weighted.normalizeText l).getLast? = some c → c ≠ ' ') ∧
    Weighted.normalizeText (str " A-b?? c ") = str "a b c" := by
  refine ⟨rfl, fun c hc => normalizeText_chars l c hc, ?_, ?_, ?_, by decide⟩
  · exact jsTrim_chain (collapseAux_chain _ false)
  · intro c hc hsp
    have := jsTrim_head_not_space _ c hc
    rw [hsp] at this
    exact absurd this (by decide)
  · intro c hc hsp
    have := jsTrim_getLast_not_space _ c hc
    rw [hsp] at this
    exact absurd this (by decide)
